import Mathlib

/-!
Verification of the C# backend of a WIT binding generator
(`crates/csharp/src/lib.rs`).  The backend consumes an abstract
instruction stream and emits C# statements; the definitions below are a
shallow embedding of the backend state machine (`FunctionBindgen`), its
`Bindgen` callbacks (`emit`, `return_pointer`, `push_block`,
`finish_block`, `is_list_canonical`), the helper `dealias`, and the
whole-world accumulation performed by `CSharp::finish`.

Emitted C# statements are modelled as a small statement AST (`CStmt`);
each constructor corresponds to one `uwrite!`/`uwriteln!` template of the
source.  Machine integers are modelled as `Nat` bit patterns with explicit
`% 2 ^ w` where the C# casts truncate.
-/

/-- WIT types (`wit_parser::Type`), as pattern-matched by the backend. -/
inductive WitType where
  | bool
  | u8
  | u16
  | u32
  | u64
  | s8
  | s16
  | s32
  | s64
  | f32
  | f64
  | char
  | string
  | id (i : Nat)
deriving DecidableEq, Repr

/-- Mirrors `fn is_primitive(ty: &Type) -> bool`: the numeric primitive
types (`U8..S64`, `F32`, `F64`); everything else is `false`. -/
def is_primitive : WitType → Bool
  | .u8 | .s8 | .u16 | .s16 | .u32 | .s32 | .u64 | .s64 | .f32 | .f64 => true
  | _ => false

/-- Mirrors `Bindgen::is_list_canonical`, which ignores the resolve and
returns `is_primitive(element)`. -/
def is_list_canonical (element : WitType) : Bool :=
  is_primitive element

/-! ## Flags lowering and lifting (`Instruction::FlagsLower` / `FlagsLift`)

A flags value is the bit set of its members, held in the generated C# enum
whose backing type is chosen by `wit_parser`'s `FlagsRepr`
(`byte`/`ushort` for at most 8/16 members, `int` otherwise, `ulong` for
more than 32 members, cf. `type_flags`).  Words produced by lowering are
32-bit patterns, so every C# cast to `int`/`uint` is `% 2 ^ 32`. -/

/-- Bit width of the generated enum's backing type (`FlagsRepr::repr()`
as used by `type_flags`): `U8` for at most 8 members, `U16` for at most
16, one 32-bit word for at most 32, and `ulong` (two words) above. -/
def flagsReprBits (numFlags : Nat) : Nat :=
  if numFlags ≤ 8 then 8
  else if numFlags ≤ 16 then 16
  else if numFlags ≤ 32 then 32
  else 64

/-- Mirrors `Instruction::FlagsLower`: for more than 32 members the value
is split into `unchecked((int)(((long)v) & uint.MaxValue))` (low word) and
`unchecked((int)((long)v >> 32))` (high word); otherwise the single word
`(int)v`.  The `int` casts truncate to 32 bits. -/
def flagsLower (numFlags : Nat) (v : Nat) : List Nat :=
  if numFlags > 32 then
    [v % 2 ^ 32, v / 2 ^ 32 % 2 ^ 32]
  else
    [v % 2 ^ 32]

/-- Mirrors `Instruction::FlagsLift`: for more than 32 members the words
are recombined as `(uint)w0 | ((ulong)(uint)w1) << 32`; otherwise the
single word is cast to the enum's backing type, truncating to its
width. -/
def flagsLift (numFlags : Nat) (ws : List Nat) : Nat :=
  if numFlags > 32 then
    ws.getD 0 0 % 2 ^ 32 + ws.getD 1 0 % 2 ^ 32 * 2 ^ 32
  else
    ws.getD 0 0 % 2 ^ flagsReprBits numFlags

/-! ## Type definitions and `dealias`

`fn dealias(resolve, id)` follows `TypeDefKind::Type(Type::Id(..))` links
until the definition is not such an alias.  The type arena
`resolve.types` is modelled as a list indexed by `TypeId = Nat`; only the
distinctions the embedded functions inspect are kept. -/

/-- The shapes of `TypeDefKind` distinguished by the embedded functions:
an alias (`TypeDefKind::Type`), a record or tuple with its arity (used by
`non_empty_type`), and everything else. -/
inductive TypeDefK where
  | typeAlias (target : WitType)
  | recordDef (numFields : Nat)
  | tupleDef (arity : Nat)
  | otherDef
deriving DecidableEq, Repr

/-- One iteration of the `dealias` loop: `some j` when
`resolve.types[id].kind` is `TypeDefKind::Type(Type::Id(j))`, `none` when
the loop breaks (any other definition). -/
def dealiasStep (types : List TypeDefK) (i : Nat) : Option Nat :=
  match types.get? i with
  | some (.typeAlias (.id j)) => some j
  | _ => none

/-- The `loop` of `fn dealias`, with explicit fuel (the Rust loop has
none; `dealias` below supplies fuel `types.length`, shown sufficient for
acyclic alias graphs). -/
def dealiasFuel (types : List TypeDefK) : Nat → Nat → Nat
  | 0, i => i
  | fuel + 1, i =>
    match dealiasStep types i with
    | some j => dealiasFuel types fuel j
    | none => i

/-- Mirrors `fn dealias(resolve: &Resolve, mut id: TypeId) -> TypeId`. -/
def dealias (types : List TypeDefK) (i : Nat) : Nat :=
  dealiasFuel types types.length i

/-- Iterated alias steps: `some m` when a chain of exactly `k` alias links
leads from `i` to `m`, `none` when the chain dies earlier. -/
def dealiasStepk (types : List TypeDefK) : Nat → Nat → Option Nat
  | 0, i => some i
  | k + 1, i =>
    match dealiasStep types i with
    | some j => dealiasStepk types k j
    | none => none

/-- Well-formedness of the type arena: every alias link targets a valid
type id (arena indexing in Rust would panic otherwise). -/
def aliasTargetsValid (types : List TypeDefK) : Bool :=
  (List.range types.length).all fun i =>
    match dealiasStep types i with
    | some j => decide (j < types.length)
    | none => true

/-- Acyclicity of the alias graph: no chain of `1..types.length` alias
links returns to its starting id. -/
def aliasAcyclic (types : List TypeDefK) : Bool :=
  (List.range types.length).all fun i =>
    (List.range types.length).all fun k =>
      decide (dealiasStepk types (k + 1) i ≠ some i)

/-! ## Emitted statements

Each constructor of `CStmt` stands for one C# statement produced by an
`uwrite!`/`uwriteln!` template of the backend; expression text is carried
as strings.  `fromString` and `gcAlloc` are the two statements that pin a
buffer (`InteropString.FromString` performs
`GCHandle.Alloc(utf8Bytes, GCHandleType.Pinned)` in the helper emitted by
`CSharp::finish`); `freeCall` is the `{address}.Free();` statement emitted
from the cleanup list. -/

inductive CStmt where
  | raw (text : String)
  | decl (ty lhs : String)
  | varDecl (lhs rhs : String)
  | assign (lhs rhs : String)
  | fromString (dst arg lenVar : String)
  | gcAlloc (handleVar buffer : String)
  | freeCall (handleVar : String)
  | stackAlloc (buffer count : String)
  | forLoop (index bound : String) (body : List CStmt)
  | switchStmt (scrutinee : String) (arms : List (Nat × List CStmt))
      (dflt : List CStmt)
  | throwStmt (msg : String)
  | retStmt (args : List String)
deriving Repr

mutual

/-- Number of buffer-pinning allocations (`GCHandle.Alloc`, including the
one inside `InteropString.FromString`) in one statement. -/
def stmtAllocCount : CStmt → Nat
  | .fromString _ _ _ => 1
  | .gcAlloc _ _ => 1
  | .forLoop _ _ body => stmtListAllocCount body
  | .switchStmt _ arms dflt => armsAllocCount arms + stmtListAllocCount dflt
  | _ => 0

def stmtListAllocCount : List CStmt → Nat
  | [] => 0
  | s :: rest => stmtAllocCount s + stmtListAllocCount rest

def armsAllocCount : List (Nat × List CStmt) → Nat
  | [] => 0
  | a :: rest => stmtListAllocCount a.2 + armsAllocCount rest

end

mutual

/-- Number of `GCHandle.Free` calls (`{address}.Free();`) in one
statement. -/
def stmtFreeCount : CStmt → Nat
  | .freeCall _ => 1
  | .forLoop _ _ body => stmtListFreeCount body
  | .switchStmt _ arms dflt => armsFreeCount arms + stmtListFreeCount dflt
  | _ => 0

def stmtListFreeCount : List CStmt → Nat
  | [] => 0
  | s :: rest => stmtFreeCount s + stmtListFreeCount rest

def armsFreeCount : List (Nat × List CStmt) → Nat
  | [] => 0
  | a :: rest => stmtListFreeCount a.2 + armsFreeCount rest

end

/-! ## The backend state machine (`FunctionBindgen`) -/

/-- Mirrors `struct Cleanup { address: String }`: the name of the
`GCHandle` local to free after the enclosing call or block. -/
structure Cleanup where
  address : String
deriving DecidableEq, Repr

/-- Mirrors `struct Block`: a finished block's body, its result operands,
and the element/base names allocated for it. -/
structure CBlock where
  body : List CStmt
  results : List String
  element : String
  base : String
deriving Repr

/-- Mirrors `struct BlockStorage`: the enclosing scope's statement buffer
and cleanup list, saved by `push_block`. -/
structure BlockStorage where
  body : List CStmt
  element : String
  base : String
  cleanup : List Cleanup
deriving Repr

/-- Mirrors the mutable state of `struct FunctionBindgen` used by the
modelled callbacks: the statement buffer `src` (one entry per emitted
statement), the local-name allocator `Ns` (modelled as a counter), the
block-storage stack, the finished-blocks stack, and the cleanup list.
Fields not exercised by the modelled instructions (`params`, `payloads`,
`needs_cleanup_list`, `resource_drops`) are omitted. -/
structure FunctionBindgen where
  src : List CStmt
  locals : Nat
  block_storage : List BlockStorage
  blocks : List CBlock
  cleanup : List Cleanup
deriving Repr

/-- Mirrors `Ns::tmp`: a fresh local name from the per-function
collision-free allocator (a counter suffix keeps names distinct). -/
def tmpName (stem : String) (n : Nat) : String := stem ++ toString n

/-- The `{address}.Free();` statements emitted for a cleanup list, one per
recorded allocation, in list order. -/
def cleanupFrees (cl : List Cleanup) : List CStmt :=
  cl.map fun c => CStmt.freeCall c.address

/-- Mirrors `Bindgen::push_block`: saves the current statement buffer and
cleanup list, allocates fresh element/base names, and starts an empty
scope. -/
def push_block (fb : FunctionBindgen) : FunctionBindgen :=
  { src := [],
    locals := fb.locals + 2,
    block_storage :=
      { body := fb.src,
        element := tmpName "element" fb.locals,
        base := tmpName "basePtr" (fb.locals + 1),
        cleanup := fb.cleanup } :: fb.block_storage,
    blocks := fb.blocks,
    cleanup := [] }

/-- Mirrors `Bindgen::finish_block`: pops the saved scope (`pop().unwrap()`
is modelled as `none` on an empty stack), emits a `Free` for every cleanup
registered inside the block, restores the saved cleanup list, pushes the
finished `Block` (its body including the frees), and restores the saved
statement buffer. -/
def finish_block (fb : FunctionBindgen) (operands : List String) :
    Option FunctionBindgen :=
  match fb.block_storage with
  | [] => none
  | storage :: rest =>
    some { src := storage.body,
           locals := fb.locals,
           block_storage := rest,
           blocks := fb.blocks ++
             [{ body := fb.src ++ cleanupFrees fb.cleanup,
                results := operands,
                element := storage.element,
                base := storage.base }],
           cleanup := storage.cleanup }

/-- Mirrors `wit_bindgen_core::Direction`. -/
inductive Direction where
  | Import
  | Export
deriving DecidableEq, Repr

/-- The subset of `wit_bindgen_core::abi::Instruction` whose `emit` arms
are modelled: the list/string lowering and lifting instructions, `Return`,
and the unsupported instructions (`Malloc` and the guest-deallocation
family).  Type-dependent data that `emit` reads (element size, element
type name, block-less payload facts) is carried in the constructor. -/
inductive Instr where
  | StringLower (realloc : Option String)
  | StringLift
  | ListCanonLower (elementSize : Nat) (realloc : Option String)
  | ListCanonLift (elementTy : String)
  | ListLower (elementSize : Nat) (realloc : Option String)
  | ListLift (elementTy : String) (elementSize : Nat)
  | Return (isConstructor : Bool) (resultCount : Nat)
  | Malloc
  | GuestDeallocate
  | GuestDeallocateString
  | GuestDeallocateVariant
  | GuestDeallocateList
deriving Repr

/-- Mirrors the corresponding arms of `Bindgen::emit` for
`FunctionBindgen`.  Statements are appended to `fb.src` in `uwrite!`
order; produced operands are returned; `unimplemented!()`/`todo!()` become
`Except.error` (generation halts with a panic at that instruction).
Notable source behaviours kept: `StringLower` pushes the same operands in
both `realloc` branches and records no cleanup for the pinned string
buffer; `ListCanonLower`/`ListLower` record a cleanup only when `realloc`
is absent; `GuestDeallocateVariant` reuses the `GuestDeallocateString`
panic message. -/
def emit (dir : Direction) (inst : Instr) (operands : List String)
    (fb : FunctionBindgen) : Except String (FunctionBindgen × List String) :=
  match inst with
  | .StringLower _realloc =>
    let op := operands.headD ""
    let interop_string := tmpName "interopString" fb.locals
    let result_var := tmpName "result" (fb.locals + 1)
    .ok ({ fb with
            locals := fb.locals + 2,
            src := fb.src ++
              [.varDecl result_var op,
               .fromString interop_string result_var
                 ("length" ++ result_var)] },
          [interop_string ++ ".ToInt32()", "length" ++ result_var])
  | .StringLift =>
    .ok (fb,
      ["Encoding.UTF8.GetString((byte*)" ++ operands.headD "" ++ ", " ++
        (operands.drop 1).headD "" ++ ")"])
  | .ListCanonLower elementSize realloc =>
    let list := operands.headD ""
    match dir with
    | .Import =>
      let buffer := tmpName "buffer" fb.locals
      .ok ({ fb with
              locals := fb.locals + 1,
              src := fb.src ++
                [.stackAlloc buffer ("(" ++ list ++ ").Length"),
                 .raw (list ++ ".AsSpan().CopyTo(new Span(" ++ buffer ++
                   ", " ++ list ++ ".Length))")] },
            ["(int)" ++ buffer, "(" ++ list ++ ").Length"])
    | .Export =>
      let address := tmpName "address" fb.locals
      let buffer := tmpName "buffer" (fb.locals + 1)
      let gc_handle := tmpName "gcHandle" (fb.locals + 2)
      .ok ({ fb with
              locals := fb.locals + 3,
              src := fb.src ++
                [.varDecl buffer
                  ("new byte[(" ++ toString elementSize ++ ") * " ++ list ++
                    ".Count()]"),
                 .raw ("Buffer.BlockCopy(" ++ list ++ ".ToArray(), 0, " ++
                   buffer ++ ", 0, (" ++ toString elementSize ++ ") * " ++
                   list ++ ".Count())"),
                 .gcAlloc gc_handle buffer,
                 .varDecl address (gc_handle ++ ".AddrOfPinnedObject()")],
              cleanup := fb.cleanup ++
                (if realloc.isNone then [Cleanup.mk gc_handle] else []) },
            ["((IntPtr)(" ++ address ++ ")).ToInt32()", list ++ ".Count()"])
  | .ListCanonLift elementTy =>
    let address := operands.headD ""
    let length := (operands.drop 1).headD ""
    let array := tmpName "array" fb.locals
    .ok ({ fb with
            locals := fb.locals + 1,
            src := fb.src ++
              [.varDecl array
                ("new " ++ elementTy ++ "[" ++ length ++ "]"),
               .raw ("new Span((void*)(" ++ address ++ "), " ++ length ++
                 ").CopyTo(new Span(" ++ array ++ "))")] },
          [array])
  | .ListLower elementSize realloc =>
    match fb.blocks.getLast? with
    | none => .error "ListLower: no block"
    | some blk =>
      if blk.results ≠ [] then .error "assertion failed: block_results.is_empty()"
      else
        let list := operands.headD ""
        let index := tmpName "index" fb.locals
        let buffer := tmpName "buffer" (fb.locals + 1)
        let gc_handle := tmpName "gcHandle" (fb.locals + 2)
        let address := tmpName "address" (fb.locals + 3)
        .ok ({ fb with
                locals := fb.locals + 4,
                blocks := fb.blocks.dropLast,
                src := fb.src ++
                  [.varDecl buffer
                    ("new byte[" ++ toString elementSize ++ " * " ++ list ++
                      ".Count()]"),
                   .gcAlloc gc_handle buffer,
                   .varDecl address (gc_handle ++ ".AddrOfPinnedObject()"),
                   .forLoop index (list ++ ".Count()")
                     ([.varDecl blk.element (list ++ "[" ++ index ++ "]"),
                       .varDecl blk.base
                         ("(int)" ++ address ++ " + (" ++ index ++ " * " ++
                           toString elementSize ++ ")")] ++
                       blk.body)],
                cleanup := fb.cleanup ++
                  (if realloc.isNone then [Cleanup.mk gc_handle] else []) },
              ["(int)" ++ address, list ++ ".Count()"])
  | .ListLift elementTy elementSize =>
    match fb.blocks.getLast? with
    | none => .error "ListLift: no block"
    | some blk =>
      match blk.results with
      | [result] =>
        let address := operands.headD ""
        let length := (operands.drop 1).headD ""
        let array := tmpName "array" fb.locals
        let index := tmpName "index" (fb.locals + 1)
        .ok ({ fb with
                locals := fb.locals + 2,
                blocks := fb.blocks.dropLast,
                src := fb.src ++
                  [.varDecl array
                    ("new List<" ++ elementTy ++ ">(" ++ length ++ ")"),
                   .forLoop index length
                     (.varDecl blk.base
                        (address ++ " + (" ++ index ++ " * " ++
                          toString elementSize ++ ")") ::
                       blk.body ++
                       [.raw (array ++ ".Add(" ++ result ++ ")")])] },
              [array])
      | _ => .error "todo: result count"
  | .Return isConstructor resultCount =>
    let retS : List CStmt :=
      if isConstructor then []
      else match resultCount with
        | 0 => []
        | _ => [.retStmt (operands.take resultCount)]
    .ok ({ fb with src := fb.src ++ cleanupFrees fb.cleanup ++ retS }, [])
  | .Malloc => .error "not implemented: Malloc"
  | .GuestDeallocate => .error "not yet implemented: GuestDeallocate"
  | .GuestDeallocateString => .error "not yet implemented: GuestDeallocateString"
  | .GuestDeallocateVariant => .error "not yet implemented: GuestDeallocateString"
  | .GuestDeallocateList => .error "not yet implemented: GuestDeallocateList"

/-! ## Variant, result and option lifting (`lift_variant`, `OptionLift`) -/

/-- Mirrors `InterfaceGenerator::non_empty_type`: `none` exactly when the
type is (through aliases) an empty record or empty tuple.  The recursion
through aliases carries explicit fuel (the Rust recursion has none;
acyclic alias graphs never exhaust it). -/
def non_empty_type (types : List TypeDefK) :
    Nat → Option WitType → Option WitType
  | _, none => none
  | fuel, some ty =>
    match ty with
    | .id i =>
      match types.get? i with
      | some (.typeAlias t) =>
        match fuel with
        | 0 => none
        | fuel + 1 => (non_empty_type types fuel (some t)).map fun _ => ty
      | some (.recordDef n) => if n ≠ 0 then some ty else none
      | some (.tupleDef n) => if n ≠ 0 then some ty else none
      | _ => some ty
    | _ => some ty

/-- Payload expression of one `lift_variant` case: the block's lifted
result for a non-empty payload; otherwise, inside a generic type, the
singleton `INSTANCE` of the case type (or a fresh `None`), else the empty
argument list.  (`results.into_iter().next().unwrap()` is modelled with
`headD`; the instruction builder guarantees a non-empty payload block
produces a result.) -/
def liftVariantPayload (types : List TypeDefK) (generics : Bool)
    (typeNameOf : WitType → String) (qualifierStr : String)
    (caseTy : Option WitType) (blockResults : List String) : String :=
  if (non_empty_type types types.length caseTy).isSome then
    blockResults.headD ""
  else if generics then
    match caseTy with
    | some ty => typeNameOf ty ++ ".INSTANCE"
    | none => "new " ++ qualifierStr ++ "None()"
  else ""

/-- One switch arm of `lift_variant` for the case at some tag: the case
block's body followed by `{lifted} = {ty}.{case}({payload});`.
(`type_name_with_qualifier` and `to_csharp_ident` run in the interface
generator and are taken as inputs; splitting the type name at a generics
position and re-concatenating reproduces `{ty}.{method}`.) -/
def liftVariantArm (types : List TypeDefK) (tyName liftedVar : String)
    (generics : Bool) (typeNameOf : WitType → String) (qualifierStr : String)
    (cb : (String × Option WitType) × CBlock) : List CStmt :=
  cb.2.body ++
    [CStmt.assign liftedVar
      (tyName ++ "." ++ cb.1.1 ++ "(" ++
        liftVariantPayload types generics typeNameOf qualifierStr cb.1.2
          cb.2.results ++ ")")]

/-- An `.enumerate().map(f)` whose numbering starts at `k` (the source
always starts at 0; the offset generalizes the induction). -/
def enumMapFrom (f : α → β) : Nat → List α → List (Nat × β)
  | _, [] => []
  | k, x :: rest => (k, f x) :: enumMapFrom f (k + 1) rest

/-- Mirrors `FunctionBindgen::lift_variant` (used by `VariantLift` and
`ResultLift`): drains one block per case from the end of the block stack,
declares the `lifted` local, and emits one switch with one arm per
declared case and a `default` arm throwing
`ArgumentException("invalid discriminant: ...")`; pushes `lifted` as the
result operand. -/
def lift_variant (types : List TypeDefK) (tyName : String) (generics : Bool)
    (typeNameOf : WitType → String) (qualifierStr : String)
    (cases : List (String × Option WitType)) (op : String)
    (fb : FunctionBindgen) : FunctionBindgen × String :=
  let blocks := fb.blocks.drop (fb.blocks.length - cases.length)
  let lifted := tmpName "lifted" fb.locals
  let arms := enumMapFrom
    (liftVariantArm types tyName lifted generics typeNameOf qualifierStr) 0
    (cases.zip blocks)
  ({ fb with
      blocks := fb.blocks.take (fb.blocks.length - cases.length),
      locals := fb.locals + 1,
      src := fb.src ++
        [.decl tyName lifted,
         .switchStmt op arms
           [.throwStmt ("invalid discriminant: " ++ op)]] },
    lifted)

/-- The two arms of the `Instruction::OptionLift` switch: tag 0 assigns
`{ty}.None`, tag 1 runs the `Some` block then assigns `new ({payload})`. -/
def optionLiftArms (tyName liftedVar payload : String)
    (someBody : List CStmt) : List (Nat × List CStmt) :=
  [(0, [CStmt.assign liftedVar (tyName ++ ".None")]),
   (1, someBody ++ [CStmt.assign liftedVar ("new (" ++ payload ++ ")")])]

/-- Mirrors the `Instruction::OptionLift` arm of `emit`: pops the `Some`
and `None` blocks, declares `lifted`, and emits a switch over the
discriminant with arms for tags 0 and 1 and a throwing `default`. -/
def optionLift (types : List TypeDefK) (tyName : String)
    (payloadTy : WitType) (op : String) (fb : FunctionBindgen) :
    Option (FunctionBindgen × String) :=
  match fb.blocks.getLast? with
  | none => none
  | some someBlk =>
    let rest := fb.blocks.dropLast
    match rest.getLast? with
    | none => none
    | some _noneBlk =>
      let lifted := tmpName "lifted" fb.locals
      let payload :=
        if (non_empty_type types types.length (some payloadTy)).isSome then
          someBlk.results.headD ""
        else "null"
      some
        ({ fb with
            blocks := rest.dropLast,
            locals := fb.locals + 1,
            src := fb.src ++
              [.decl tyName lifted,
               .switchStmt op (optionLiftArms tyName lifted payload someBlk.body)
                 [.throwStmt ("invalid discriminant: " ++ op)]] },
          lifted)

/-- Semantics of the generated C# `switch` over an integer scrutinee with
integer case labels: the unique matching arm's body runs; the `default`
body runs when no label matches. -/
def switchDispatch (arms : List (Nat × List CStmt)) (dflt : List CStmt)
    (d : Nat) : List CStmt :=
  match arms.find? (fun a => a.1 == d) with
  | some a => a.2
  | none => dflt

/-! ## Resource handle lowering (`Instruction::HandleLower`) -/

/-- The generated resource class carries a nullable local handle field. -/
structure ResourceObj where
  handle : Option Int
deriving DecidableEq, Repr

/-- State read and written by the statements emitted for `HandleLower`:
the operand object and (for the exporting side) the process-wide
`RepTable`, modelled as the list of registered objects, `Add` appending
and returning the new index. -/
structure HandleState where
  obj : ResourceObj
  repTable : List Nat
deriving DecidableEq, Repr

/-- Runtime meaning of the statements emitted by the
`Instruction::HandleLower` arm, per resource direction.  Import-declared
resource: `var handle = op.handle;` then, for an owned handle only,
`op.handle = null;`; the lowered operand is the saved handle.
Export-declared resource: when the object is unregistered, register it in
the `RepTable` and (owned) mint an external handle via
`[resource-new]` and store it in `op.handle`, or (borrowed) store the rep
itself; the lowered operand is the C# local `handle`, which the borrowed
branch never updates.  (`(int) handle` on a null handle would throw; the
model returns the value when present.) -/
def handleLower (direction : Direction) (isOwn : Bool) (objId : Nat)
    (externalNew : Nat → Int) (s : HandleState) : HandleState × Option Int :=
  let handle := s.obj.handle
  match direction with
  | .Import =>
    if isOwn then ({ s with obj := { handle := none } }, handle)
    else (s, handle)
  | .Export =>
    if handle.isNone then
      let local_rep := s.repTable.length
      let t : HandleState := { s with repTable := s.repTable ++ [objId] }
      if isOwn then
        let h := externalNew local_rep
        ({ t with obj := { handle := some h } }, some h)
      else
        ({ t with obj := { handle := some (Int.ofNat local_rep) } }, handle)
    else (s, handle)

/-! ## Runtime meaning of the emitted list-lift loop -/

/-- Runtime meaning of the loop emitted by `Instruction::ListLift`:
`for (int index = 0; index < length; ++index)` computes the element
address `base = address + (index * size)`, runs the element block once,
and appends its result with `array.Add(result)`; iterations run in
increasing index order, each appending at the end.  `evalBlock a` is the
value the block body produces when its base pointer is `a`. -/
def listLiftRun (evalBlock : Nat → α) (address size : Nat) : Nat → List α
  | 0 => []
  | len + 1 =>
    listLiftRun evalBlock address size len ++ [evalBlock (address + len * size)]

/-! ## Return areas (`Bindgen::return_pointer`, `CSharp::finish`) -/

/-- The whole-world accumulator fields of `struct CSharp` read and written
by `return_pointer` and `finish`. -/
structure GenAcc where
  return_area_size : Nat
  return_area_align : Nat
  needs_export_return_area : Bool
deriving DecidableEq, Repr

/-- The per-function fields of `struct FunctionBindgen` written by
the import branch of `return_pointer`. -/
structure FuncAcc where
  import_return_pointer_area_size : Nat
  import_return_pointer_area_align : Nat
deriving DecidableEq, Repr

/-- Mirrors `Bindgen::return_pointer`: imports allocate a fresh per-call
`ImportReturnArea` on the stack and track the per-function maxima; exports
take the address of the shared `InteropReturnArea.returnArea` and merge
the request into the whole-world maxima, marking the shared area needed. -/
def return_pointer (dir : Direction) (size align : Nat) (g : GenAcc)
    (l : FuncAcc) (fb : FunctionBindgen) :
    GenAcc × FuncAcc × FunctionBindgen × String :=
  let ptr := tmpName "ptr" fb.locals
  match dir with
  | .Import =>
    let ret_area := tmpName "retArea" (fb.locals + 1)
    (g,
     { import_return_pointer_area_size :=
         max l.import_return_pointer_area_size size,
       import_return_pointer_area_align :=
         max l.import_return_pointer_area_align align },
     { fb with
        locals := fb.locals + 2,
        src := fb.src ++
          [.varDecl ret_area "new ImportReturnArea()",
           .varDecl ptr (ret_area ++ ".AddressOfReturnArea()")] },
     ptr)
  | .Export =>
    ({ return_area_size := max g.return_area_size size,
       return_area_align := max g.return_area_align align,
       needs_export_return_area := true },
     l,
     { fb with
        locals := fb.locals + 1,
        src := fb.src ++
          [.varDecl ptr "InteropReturnArea.returnArea.AddressOfReturnArea()"] },
     ptr)

/-- The whole-world accumulator after translating a sequence of
export-side return-area requests (one `(size, align)` pair per
`return_pointer` call), in order. -/
def runExportRequests (g : GenAcc) : List (Nat × Nat) → GenAcc
  | [] => g
  | r :: rest =>
    runExportRequests
      { return_area_size := max g.return_area_size r.1,
        return_area_align := max g.return_area_align r.2,
        needs_export_return_area := true } rest

/-- The shared return-area declaration emitted by `CSharp::finish` when
needed: `[InlineArray(size)]`, `[StructLayout(.., Pack = align)]`, and a
`[ThreadStatic]` static field. -/
structure ReturnAreaDecl where
  size : Nat
  pack : Nat
  threadStatic : Bool
deriving DecidableEq, Repr

/-- Mirrors the `needs_export_return_area` block of `CSharp::finish`: the
`InteropReturnArea` class is emitted once, sized and packed by the final
accumulator values, with a `[ThreadStatic]` field; nothing is emitted when
no export requested a return area. -/
def finishReturnArea (g : GenAcc) : Option ReturnAreaDecl :=
  if g.needs_export_return_area then
    some { size := g.return_area_size, pack := g.return_area_align,
           threadStatic := true }
  else none

/-! ## File emission in `CSharp::finish` -/

/-- Mirrors `struct InterfaceFragment`. -/
structure InterfaceFragment where
  csharp_src : String
  csharp_interop_src : String
  stub : String
deriving DecidableEq, Repr

/-- One entry of the `interface_fragments` map
(`HashMap<String, InterfaceTypeAndFragments>`): the fully qualified
interface name and its fragments. -/
structure InterfaceEntry where
  full_name : String
  is_export : Bool
  fragments : List InterfaceFragment
deriving DecidableEq, Repr

/-- Mirrors `CSharp::get_class_name_from_qualified_name`: the qualifier
(without its trailing dot) and the last dot-separated part. -/
def get_class_name_from_qualified_name (qualified : String) :
    String × String :=
  let parts := qualified.splitOn "."
  match parts.getLast? with
  | some last => (String.intercalate "." parts.dropLast, last)
  | none => ("", "")

/-- The files pushed for one `interface_fragments` entry by the loop at
the end of `CSharp::finish`: the interface declaration file (only when the
joined `csharp_src` body is non-empty), the interop class file, and, for
an export with `generate_stub`, the stub file.  Body text is the joined
fragment sources wrapped in the namespace/class template. -/
def entryFiles (version : String) (generate_stub : Bool)
    (e : InterfaceEntry) : List (String × String) :=
  let ns_name := get_class_name_from_qualified_name e.full_name
  let body := String.intercalate "\n" (e.fragments.map (·.csharp_src))
  let interface_files :=
    if body.length > 0 then
      [(e.full_name ++ ".cs",
        "// Generated by wit-bindgen " ++ version ++ "\nnamespace " ++
          ns_name.1 ++ ";\npublic interface " ++ ns_name.2 ++ "\n" ++ body)]
    else []
  let class_name := ns_name.2.drop 1
  let interop_body :=
    String.intercalate "\n" (e.fragments.map (·.csharp_interop_src))
  let interop_files :=
    [(ns_name.1 ++ "." ++ class_name ++ "Interop.cs",
      "// Generated by wit-bindgen " ++ version ++ "\nnamespace " ++
        ns_name.1 ++ "\npublic static class " ++ class_name ++ "Interop\n" ++
        interop_body)]
  let stub_files :=
    if e.is_export && generate_stub then
      [(class_name ++ "Impl.cs",
        String.intercalate "\n" (e.fragments.map (·.stub)))]
    else []
  interface_files ++ interop_files ++ stub_files

/-- The files pushed by `CSharp::finish`: the world-level files (world
source, `cabi_realloc` C file, component-type object, attribute shim —
all functions of the world fragments and options alone), followed by the
per-interface files, in the iteration order of the
`interface_fragments` hash map. -/
def finishFiles (worldFiles : List (String × String)) (version : String)
    (generate_stub : Bool) (entries : List InterfaceEntry) :
    List (String × String) :=
  worldFiles ++ entries.flatMap (entryFiles version generate_stub)

/-- The generator run exhibiting the string-buffer leak: lowering one
string argument of an imported function (`StringLower` with no realloc,
the case the cleanup machinery is for) and then `Return`. -/
def stringLowerThenReturn : Except String (FunctionBindgen × List String) :=
  match emit .Import (.StringLower none) ["name"]
      { src := [], locals := 0, block_storage := [], blocks := [],
        cleanup := [] } with
  | .ok (fb1, _) => emit .Import (.Return false 1) ["ret"] fb1
  | .error e => .error e

/-! ## Theorems -/

theorem flagsReprBits_ge (n : Nat) (h : n ≤ 32) : n ≤ flagsReprBits n := by
  unfold flagsReprBits
  repeat' split
  all_goals omega

theorem two_pow_flagsReprBits_ge (n : Nat) (h : n ≤ 32) :
    2 ^ n ≤ 2 ^ flagsReprBits n :=
  Nat.pow_le_pow_right (by omega) (flagsReprBits_ge n h)

/-- C2: for every flags type with `n ≤ 64` members and every combination
`v < 2 ^ n` of set members, lowering packs the set into one 32-bit word
when `n ≤ 32` and into two words otherwise, member 32 becoming bit 0 of
the second word, and lifting the lowered words reproduces exactly `v`. -/
theorem flags_lower_lift_roundtrip (n v : Nat) (hn : n ≤ 64) (hv : v < 2 ^ n) :
    (flagsLower n v).length = (if n ≤ 32 then 1 else 2) ∧
      (n > 32 → ((flagsLower n v).getD 1 0).testBit 0 = v.testBit 32) ∧
      flagsLift n (flagsLower n v) = v := by
  unfold flagsLower flagsLift
  by_cases h32 : n > 32
  · have hlt : v < 2 ^ 64 := lt_of_lt_of_le hv (Nat.pow_le_pow_right (by omega) hn)
    have hdiv : v / 2 ^ 32 < 2 ^ 32 := by
      apply Nat.div_lt_of_lt_mul
      calc v < 2 ^ 64 := hlt
        _ = 2 ^ 32 * 2 ^ 32 := by norm_num
    have hif : ¬ n ≤ 32 := by omega
    simp only [if_pos h32, if_neg hif]
    refine ⟨rfl, ?_, ?_⟩
    · intro _
      show (v / 2 ^ 32 % 2 ^ 32).testBit 0 = v.testBit 32
      rw [Nat.testBit_mod_two_pow]
      have hshift : v / 2 ^ 32 = v >>> 32 := (Nat.shiftRight_eq_div_pow v 32).symm
      rw [hshift, Nat.testBit_shiftRight]
      simp
    · show v % 2 ^ 32 % 2 ^ 32 + v / 2 ^ 32 % 2 ^ 32 % 2 ^ 32 * 2 ^ 32 = v
      have h1 : v % 2 ^ 32 % 2 ^ 32 = v % 2 ^ 32 :=
        Nat.mod_eq_of_lt (Nat.mod_lt _ (by norm_num))
      have h2 : v / 2 ^ 32 % 2 ^ 32 = v / 2 ^ 32 := Nat.mod_eq_of_lt hdiv
      have h3 : 2 ^ 32 * (v / 2 ^ 32) + v % 2 ^ 32 = v := Nat.div_add_mod v (2 ^ 32)
      rw [h1, h2, h2]
      omega
  · have hle : n ≤ 32 := by omega
    have hv32 : v < 2 ^ 32 :=
      lt_of_lt_of_le hv (Nat.pow_le_pow_right (by omega) hle)
    have hvrepr : v < 2 ^ flagsReprBits n :=
      lt_of_lt_of_le hv (two_pow_flagsReprBits_ge n hle)
    simp only [if_neg h32, if_pos hle]
    refine ⟨rfl, by omega, ?_⟩
    show v % 2 ^ 32 % 2 ^ flagsReprBits n = v
    rw [Nat.mod_eq_of_lt hv32, Nat.mod_eq_of_lt hvrepr]

/-- Witness for C2 at a concrete input: 33 members, with exactly member 32
set (`v = 2 ^ 32`), packs into two words whose second word has bit 0 set,
and round-trips. -/
theorem flags_lower_lift_roundtrip_witness :
    (33 ≤ 64 ∧ 2 ^ 32 < 2 ^ 33) ∧
      ((flagsLower 33 (2 ^ 32)).length = (if 33 ≤ 32 then 1 else 2) ∧
        (33 > 32 →
          ((flagsLower 33 (2 ^ 32)).getD 1 0).testBit 0 = (2 ^ 32 : Nat).testBit 32) ∧
        flagsLift 33 (flagsLower 33 (2 ^ 32)) = 2 ^ 32) :=
  ⟨⟨by norm_num, by norm_num⟩,
    flags_lower_lift_roundtrip 33 (2 ^ 32) (by norm_num) (by norm_num)⟩

theorem aliasTargetsValid_spec (types : List TypeDefK)
    (h : aliasTargetsValid types = true) :
    ∀ i j, i < types.length → dealiasStep types i = some j →
      j < types.length := by
  intro i j hi hstep
  have := List.all_eq_true.mp h i (List.mem_range.mpr hi)
  rw [hstep] at this
  exact of_decide_eq_true this

theorem aliasAcyclic_spec (types : List TypeDefK)
    (h : aliasAcyclic types = true) :
    ∀ i k, i < types.length → k < types.length →
      dealiasStepk types (k + 1) i ≠ some i := by
  intro i k hi hk
  have h1 := List.all_eq_true.mp h i (List.mem_range.mpr hi)
  have h2 := List.all_eq_true.mp h1 k (List.mem_range.mpr hk)
  exact of_decide_eq_true h2

theorem dealiasStepk_bound (types : List TypeDefK)
    (hwf : aliasTargetsValid types = true) :
    ∀ k i m, i < types.length → dealiasStepk types k i = some m →
      m < types.length := by
  intro k
  induction k with
  | zero =>
    intro i m hi hstep
    simp only [dealiasStepk, Option.some.injEq] at hstep
    omega
  | succ k ih =>
    intro i m hi hstep
    simp only [dealiasStepk] at hstep
    cases hs : dealiasStep types i with
    | none => rw [hs] at hstep; exact absurd hstep (by simp)
    | some j =>
      rw [hs] at hstep
      exact ih j m (aliasTargetsValid_spec types hwf i j hi hs) hstep

theorem dealiasStepk_add (types : List TypeDefK) :
    ∀ a b i, dealiasStepk types (a + b) i =
      (dealiasStepk types a i).bind (dealiasStepk types b) := by
  intro a
  induction a with
  | zero => intro b i; simp [dealiasStepk]
  | succ a ih =>
    intro b i
    have hab : a + 1 + b = (a + b) + 1 := by omega
    rw [hab]
    simp only [dealiasStepk]
    cases dealiasStep types i with
    | none => simp
    | some j => exact ih b j

theorem dealiasStepk_none_exists (types : List TypeDefK) (i : Nat)
    (hi : i < types.length)
    (hwf : aliasTargetsValid types = true)
    (hacyc : aliasAcyclic types = true) :
    ∃ k, k ≤ types.length ∧ dealiasStepk types k i = none := by
  by_contra hcon
  push_neg at hcon
  have hsome : ∀ k : Fin (types.length + 1),
      (dealiasStepk types k.1 i).isSome := by
    intro k
    cases hk : dealiasStepk types k.1 i with
    | none => exact absurd hk (hcon k.1 (by omega))
    | some m => rfl
  have hzero : 0 < types.length := by omega
  let f : Fin (types.length + 1) → Fin types.length := fun k =>
    ⟨(dealiasStepk types k.1 i).get (hsome k), by
      have hk := Option.eq_some_of_isSome (hsome k)
      exact dealiasStepk_bound types hwf k.1 i _ hi hk⟩
  obtain ⟨a, b, hab, hfab⟩ :=
    Fintype.exists_ne_map_eq_of_card_lt f (by simp)
  rcases Nat.lt_or_ge a.1 b.1 with hlt | hge
  · have ha := Option.eq_some_of_isSome (hsome a)
    have hb := Option.eq_some_of_isSome (hsome b)
    have hval : (dealiasStepk types a.1 i).get (hsome a) =
        (dealiasStepk types b.1 i).get (hsome b) := congrArg Fin.val hfab
    set x := (dealiasStepk types a.1 i).get (hsome a) with hxdef
    have hbx : dealiasStepk types b.1 i = some x := by rw [hb, hval]
    have hax : dealiasStepk types a.1 i = some x := ha
    have hsplit : dealiasStepk types (a.1 + (b.1 - a.1)) i =
        (dealiasStepk types a.1 i).bind (dealiasStepk types (b.1 - a.1)) :=
      dealiasStepk_add types a.1 (b.1 - a.1) i
    rw [Nat.add_sub_cancel' (Nat.le_of_lt hlt)] at hsplit
    rw [hax] at hsplit
    simp only [Option.some_bind] at hsplit
    have hcycle : dealiasStepk types (b.1 - a.1) x = some x := by
      rw [← hsplit, hbx]
    have hxlt : x < types.length :=
      dealiasStepk_bound types hwf a.1 i x hi hax
    have hk1 : b.1 - a.1 - 1 < types.length := by
      have := b.2; omega
    have := aliasAcyclic_spec types hacyc x (b.1 - a.1 - 1) hxlt hk1
    have hrw : b.1 - a.1 - 1 + 1 = b.1 - a.1 := by omega
    rw [hrw] at this
    exact this hcycle
  · have hlt : b.1 < a.1 := by
      rcases Nat.lt_or_eq_of_le hge with h | h
      · exact h
      · exact absurd (Fin.ext h.symm) hab
    have ha := Option.eq_some_of_isSome (hsome a)
    have hb := Option.eq_some_of_isSome (hsome b)
    have hval : (dealiasStepk types b.1 i).get (hsome b) =
        (dealiasStepk types a.1 i).get (hsome a) := (congrArg Fin.val hfab).symm
    set x := (dealiasStepk types b.1 i).get (hsome b) with hxdef
    have hax : dealiasStepk types a.1 i = some x := by rw [ha, hval]
    have hbx : dealiasStepk types b.1 i = some x := hb
    have hsplit : dealiasStepk types (b.1 + (a.1 - b.1)) i =
        (dealiasStepk types b.1 i).bind (dealiasStepk types (a.1 - b.1)) :=
      dealiasStepk_add types b.1 (a.1 - b.1) i
    rw [Nat.add_sub_cancel' (Nat.le_of_lt hlt)] at hsplit
    rw [hbx] at hsplit
    simp only [Option.some_bind] at hsplit
    have hcycle : dealiasStepk types (a.1 - b.1) x = some x := by
      rw [← hsplit, hax]
    have hxlt : x < types.length :=
      dealiasStepk_bound types hwf b.1 i x hi hbx
    have hk1 : a.1 - b.1 - 1 < types.length := by
      have := a.2; omega
    have := aliasAcyclic_spec types hacyc x (a.1 - b.1 - 1) hxlt hk1
    have hrw : a.1 - b.1 - 1 + 1 = a.1 - b.1 := by omega
    rw [hrw] at this
    exact this hcycle

theorem dealiasStepk_none_dies (types : List TypeDefK) :
    ∀ k i, dealiasStepk types k i = none →
      ∃ c m, c < k ∧ dealiasStepk types c i = some m ∧
        dealiasStep types m = none := by
  intro k
  induction k with
  | zero => intro i h; exact absurd h (by simp [dealiasStepk])
  | succ k ih =>
    intro i h
    simp only [dealiasStepk] at h
    cases hs : dealiasStep types i with
    | none =>
      exact ⟨0, i, by omega, rfl, hs⟩
    | some j =>
      rw [hs] at h
      obtain ⟨c, m, hck, hcm, hm⟩ := ih j h
      refine ⟨c + 1, m, by omega, ?_, hm⟩
      simp only [dealiasStepk, hs]
      exact hcm

theorem dealiasFuel_run (types : List TypeDefK) :
    ∀ k i m fuel, dealiasStepk types k i = some m →
      dealiasStep types m = none → k ≤ fuel →
      dealiasFuel types fuel i = m := by
  intro k
  induction k with
  | zero =>
    intro i m fuel hk hm _
    simp only [dealiasStepk, Option.some.injEq] at hk
    subst hk
    cases fuel with
    | zero => rfl
    | succ fuel => simp only [dealiasFuel, hm]
  | succ k ih =>
    intro i m fuel hk hm hfuel
    simp only [dealiasStepk] at hk
    cases hs : dealiasStep types i with
    | none => rw [hs] at hk; exact absurd hk (by simp)
    | some j =>
      rw [hs] at hk
      cases fuel with
      | zero => omega
      | succ fuel =>
        simp only [dealiasFuel, hs]
        exact ih j m fuel hk hm (by omega)

/-- C10: for every resolve whose type-alias chains are acyclic and every
valid type id in it, `dealias` (whose loop is run with fuel
`types.length`, enough to reach the fixed point) returns an id reachable
from the input by following alias (`Type::Id`) links, and the returned
id's definition is never itself an alias to another type id. -/
theorem dealias_terminates_no_alias (types : List TypeDefK) (i : Nat)
    (hi : i < types.length)
    (hwf : aliasTargetsValid types = true)
    (hacyc : aliasAcyclic types = true) :
    dealiasStep types (dealias types i) = none ∧
      ∃ k, dealiasStepk types k i = some (dealias types i) := by
  obtain ⟨k, hk, hnone⟩ := dealiasStepk_none_exists types i hi hwf hacyc
  obtain ⟨c, m, hck, hcm, hm⟩ := dealiasStepk_none_dies types k i hnone
  have hrun : dealiasFuel types types.length i = m :=
    dealiasFuel_run types c i m types.length hcm hm (by omega)
  have hdm : dealias types i = m := hrun
  rw [hdm]
  exact ⟨hm, c, hcm⟩

/-- Witness for C10 at a concrete resolve: two types, type 0 an alias to
type 1, type 1 a record; `dealias` from id 0 ends at a non-alias id. -/
theorem dealias_terminates_no_alias_witness :
    dealiasStep [TypeDefK.typeAlias (WitType.id 1), TypeDefK.recordDef 2]
        (dealias [TypeDefK.typeAlias (WitType.id 1), TypeDefK.recordDef 2] 0) =
      none ∧
      ∃ k, dealiasStepk [TypeDefK.typeAlias (WitType.id 1), TypeDefK.recordDef 2]
        k 0 =
        some (dealias
          [TypeDefK.typeAlias (WitType.id 1), TypeDefK.recordDef 2] 0) :=
  dealias_terminates_no_alias
    [TypeDefK.typeAlias (WitType.id 1), TypeDefK.recordDef 2] 0
    (by decide) (by decide) (by decide)


/-- C9: `push_block`/`finish_block` obey a strict stack discipline: for
any state reached inside the block (arbitrary statements, cleanups,
finished blocks and name allocations, with the frame pushed by the
matching `push_block` still on top), `finish_block` emits exactly one
`Free` per cleanup registered inside the block into the block body and
restores exactly the statement buffer and cleanup list saved by
`push_block`, so the enclosing scope's statement buffer and cleanup list
are unchanged and no block-scoped cleanup obligation escapes. -/
theorem push_finish_block_stack_discipline
    (fb : FunctionBindgen) (src2 : List CStmt) (cleanup2 : List Cleanup)
    (blocks2 : List CBlock) (locals2 : Nat) (ops : List String) :
    finish_block
        { src := src2, locals := locals2,
          block_storage := (push_block fb).block_storage,
          blocks := blocks2, cleanup := cleanup2 } ops =
      some { src := fb.src, locals := locals2,
             block_storage := fb.block_storage,
             blocks := blocks2 ++
               [{ body := src2 ++ cleanupFrees cleanup2,
                  results := ops,
                  element := tmpName "element" fb.locals,
                  base := tmpName "basePtr" (fb.locals + 1) }],
             cleanup := fb.cleanup } ∧
      (cleanupFrees cleanup2).length = cleanup2.length :=
  ⟨rfl, by simp [cleanupFrees]⟩

/-- C8: the `Malloc` and guest-deallocation instructions make `emit` fail
generation with an explicit error (the source's `unimplemented!()` and
`todo!()` panics), for every state and operand stack — never a silent
no-op that continues emitting output. -/
theorem unsupported_instructions_fail (dir : Direction)
    (operands : List String) (fb : FunctionBindgen) :
    emit dir .Malloc operands fb = .error "not implemented: Malloc" ∧
      emit dir .GuestDeallocate operands fb =
        .error "not yet implemented: GuestDeallocate" ∧
      emit dir .GuestDeallocateString operands fb =
        .error "not yet implemented: GuestDeallocateString" ∧
      emit dir .GuestDeallocateVariant operands fb =
        .error "not yet implemented: GuestDeallocateString" ∧
      emit dir .GuestDeallocateList operands fb =
        .error "not yet implemented: GuestDeallocateList" :=
  ⟨rfl, rfl, rfl, rfl, rfl⟩

/-- C3: for a resource declared on the importing side, lowering an owned
handle clears the object's local handle reference (sets it to `null`)
after saving it for transmission, while lowering a borrowed handle leaves
the object (and the whole state) unchanged; in both cases the transmitted
operand is the original local handle. -/
theorem handle_lower_ownership (objId : Nat) (externalNew : Nat → Int)
    (s : HandleState) :
    ((handleLower .Import true objId externalNew s).1.obj.handle = none ∧
        (handleLower .Import true objId externalNew s).2 = s.obj.handle) ∧
      (handleLower .Import false objId externalNew s).1 = s ∧
        (handleLower .Import false objId externalNew s).2 = s.obj.handle :=
  ⟨⟨rfl, rfl⟩, rfl, rfl⟩

/-- C4: evaluation of the code at the failing input.  Lowering a string
pins a buffer (`InteropString.FromString` performs a pinned
`GCHandle.Alloc` and returns only the address), but `StringLower` records
nothing in the cleanup list, so the `Return` arm emits no `Free` for it:
the finished function body contains one pinned allocation, zero `Free`
statements, and an empty cleanup list — the convention-only allocation is
leaked, contradicting the claim that it is released exactly once.  (The
source acknowledges the gap: `import` appends
`//TODO: free alloc handle (interopString) if exists` to every import
body.) -/
theorem string_lower_pinned_buffer_leaked :
    stringLowerThenReturn.map
        (fun p =>
          (stmtListAllocCount p.1.src, stmtListFreeCount p.1.src,
            p.1.cleanup)) =
      .ok (1, 0, []) := rfl

theorem enumMapFrom_length (f : α → β) :
    ∀ (k : Nat) (l : List α), (enumMapFrom f k l).length = l.length := by
  intro k l
  induction l generalizing k with
  | nil => rfl
  | cons x rest ih => simp [enumMapFrom, ih]

theorem enumMapFrom_find_eq (f : α → β) :
    ∀ (l : List α) (k d : Nat),
      (enumMapFrom f k l).find? (fun a => a.1 == k + d) =
        (l[d]?).map fun x => (k + d, f x) := by
  intro l
  induction l with
  | nil => intro k d; rfl
  | cons x rest ih =>
    intro k d
    cases d with
    | zero =>
      rw [enumMapFrom, List.find?_cons_of_pos _ (by simp)]
      simp
    | succ d =>
      rw [enumMapFrom, List.find?_cons_of_neg _ (by simp)]
      have := ih (k + 1) d
      rw [show k + 1 + d = k + (d + 1) from by omega] at this
      simpa using this

theorem switchDispatch_enumMapFrom (f : α → List CStmt) (l : List α)
    (dflt : List CStmt) (d : Nat) :
    switchDispatch (enumMapFrom f 0 l) dflt d =
      match l[d]? with
      | some x => f x
      | none => dflt := by
  unfold switchDispatch
  have h := enumMapFrom_find_eq f l 0 d
  simp only [Nat.zero_add] at h
  rw [h]
  cases l[d]? <;> simp

/-- C1: the dispatch emitted by `lift_variant` (used for tagged variants
and results) is a switch with exactly one arm per declared case, at tags
`0..N-1` in declaration order; the arm for tag `d` runs case `d`'s block
body and constructs via case `d`'s constructor applied to that block's
lifted payload; every discriminant outside `0..N-1` reaches the `default`
arm, which throws (`invalid discriminant`), never any case arm.  The
two-arm switch emitted by `OptionLift` behaves the same way: tag 0 builds
`None`, tag 1 runs the `Some` block and wraps its payload, and every
other discriminant throws. -/
theorem variant_option_lift_dispatch
    (types : List TypeDefK) (tyName : String) (generics : Bool)
    (typeNameOf : WitType → String) (qualifierStr : String)
    (cases : List (String × Option WitType)) (op : String)
    (fb : FunctionBindgen) (d : Nat) (liftedVar payload : String)
    (someBody : List CStmt)
    (hlen : cases.length ≤ fb.blocks.length) :
    let lifted := tmpName "lifted" fb.locals
    let drained := fb.blocks.drop (fb.blocks.length - cases.length)
    let arms := enumMapFrom
      (liftVariantArm types tyName lifted generics typeNameOf qualifierStr) 0
      (cases.zip drained)
    let dflt : List CStmt := [.throwStmt ("invalid discriminant: " ++ op)]
    ((lift_variant types tyName generics typeNameOf qualifierStr cases op
          fb).1.src =
        fb.src ++ [.decl tyName lifted, .switchStmt op arms dflt]) ∧
      arms.length = cases.length ∧
      (d < cases.length →
        ∃ c b, cases[d]? = some c ∧ drained[d]? = some b ∧
          switchDispatch arms dflt d =
            liftVariantArm types tyName lifted generics typeNameOf
              qualifierStr (c, b)) ∧
      (cases.length ≤ d → switchDispatch arms dflt d = dflt) ∧
      switchDispatch (optionLiftArms tyName liftedVar payload someBody)
          dflt 0 =
        [.assign liftedVar (tyName ++ ".None")] ∧
      switchDispatch (optionLiftArms tyName liftedVar payload someBody)
          dflt 1 =
        someBody ++ [.assign liftedVar ("new (" ++ payload ++ ")")] ∧
      (∀ e, 2 ≤ e →
        switchDispatch (optionLiftArms tyName liftedVar payload someBody)
            dflt e =
          dflt) := by
  intro lifted drained arms dflt
  have hdrained : drained.length = cases.length := by
    simp only [drained, List.length_drop]
    omega
  have hziplen : (cases.zip drained).length = cases.length := by
    simp [List.length_zip, hdrained]
  refine ⟨rfl, ?_, ?_, ?_, rfl, rfl, ?_⟩
  · simp [arms, enumMapFrom_length, hziplen]
  · intro hd
    have hc : cases[d]? = some (cases.get ⟨d, hd⟩) := List.getElem?_eq_getElem hd
    have hdb : d < drained.length := by omega
    have hb : drained[d]? = some (drained.get ⟨d, hdb⟩) :=
      List.getElem?_eq_getElem hdb
    have hzip : (cases.zip drained)[d]? =
        some (cases.get ⟨d, hd⟩, drained.get ⟨d, hdb⟩) :=
      List.getElem?_zip_eq_some.mpr ⟨hc, hb⟩
    refine ⟨cases.get ⟨d, hd⟩, drained.get ⟨d, hdb⟩, hc, hb, ?_⟩
    rw [show arms = enumMapFrom
      (liftVariantArm types tyName lifted generics typeNameOf qualifierStr) 0
      (cases.zip drained) from rfl]
    rw [switchDispatch_enumMapFrom, hzip]
  · intro hd
    have hnone : (cases.zip drained)[d]? = none :=
      List.getElem?_eq_none (by omega)
    rw [show arms = enumMapFrom
      (liftVariantArm types tyName lifted generics typeNameOf qualifierStr) 0
      (cases.zip drained) from rfl]
    rw [switchDispatch_enumMapFrom, hnone]
  · intro e he
    unfold switchDispatch optionLiftArms
    rw [List.find?_cons_of_neg _ (by simp; omega),
      List.find?_cons_of_neg _ (by simp; omega)]
    rfl

/-- Witness for C1 at a concrete input: a two-case variant; discriminant 7
is out of range and reaches the throwing default arm. -/
theorem variant_option_lift_dispatch_witness :
    ([("circle", some WitType.u32), ("square", none)] :
        List (String × Option WitType)).length ≤
      (FunctionBindgen.mk [] 0 []
        [CBlock.mk [] ["x"] "e0" "b0", CBlock.mk [] [] "e1" "b1"]
        []).blocks.length ∧
      switchDispatch
          (optionLiftArms "OptionU32" "lv" "p" [CStmt.raw "someBody"])
          [CStmt.throwStmt ("invalid discriminant: " ++ "tag")] 7 =
        [CStmt.throwStmt ("invalid discriminant: " ++ "tag")] := by
  refine ⟨by decide, ?_⟩
  have h := variant_option_lift_dispatch [] "Shape" false (fun _ => "") ""
    [("circle", some WitType.u32), ("square", none)] "tag"
    (FunctionBindgen.mk [] 0 []
      [CBlock.mk [] ["x"] "e0" "b0", CBlock.mk [] [] "e1" "b1"] [])
    7 "lv" "p" [CStmt.raw "someBody"] (by decide)
  exact h.2.2.2.2.2.2 7 (by omega)

theorem listLiftRun_eq_map (evalBlock : Nat → α) (address size : Nat) :
    ∀ n, listLiftRun evalBlock address size n =
      (List.range n).map fun i => evalBlock (address + i * size) := by
  intro n
  induction n with
  | zero => rfl
  | succ n ih => rw [listLiftRun, ih, List.range_succ, List.map_append]; rfl

/-- C6: canonicity of a list is exactly primitiveness of its element type
(the ten numeric types); a canonical lift bulk-copies — it consumes no
block and emits no loop — while a general lift consumes exactly one block
and emits a single loop whose body recomputes the element address as
`address + (index * size)` and appends the block's result each iteration;
running that loop for `n` elements evaluates the block at
`address + i*size` for `i = 0..n-1` and appends the results in index
order.  A general lower likewise consumes one block and loops, writing
each element at `(int)address + (index * size)`.  A canonical lower also
consumes no block and emits no loop: the import side bulk-copies into a
stack allocation, and the export side bulk-copies into a pinned buffer
(`GCHandle.Alloc`), recording the pin in the cleanup list exactly when no
realloc is supplied. -/
theorem list_canonical_and_loop_translation (element : WitType)
    (dir : Direction) (fb fbl fbc : FunctionBindgen) (bs bsl : List CBlock)
    (blk blkl : CBlock) (r elementTy address length list : String)
    (size : Nat) (realloc : Option String) (evalBlock : Nat → α)
    (addr sz n : Nat)
    (hblocks : fb.blocks = bs ++ [blk]) (hres : blk.results = [r])
    (hblocksl : fbl.blocks = bsl ++ [blkl]) (hresl : blkl.results = []) :
    (is_list_canonical element = is_primitive element ∧
      (is_primitive element = true ↔
        element = .u8 ∨ element = .s8 ∨ element = .u16 ∨ element = .s16 ∨
          element = .u32 ∨ element = .s32 ∨ element = .u64 ∨
          element = .s64 ∨ element = .f32 ∨ element = .f64)) ∧
      emit dir (.ListCanonLift elementTy) [address, length] fbc =
        .ok ({ fbc with
                locals := fbc.locals + 1,
                src := fbc.src ++
                  [.varDecl (tmpName "array" fbc.locals)
                    ("new " ++ elementTy ++ "[" ++ length ++ "]"),
                   .raw ("new Span((void*)(" ++ address ++ "), " ++ length ++
                     ").CopyTo(new Span(" ++ tmpName "array" fbc.locals ++
                     "))")] },
              [tmpName "array" fbc.locals]) ∧
      emit .Import (.ListCanonLower size realloc) [list] fbc =
        .ok ({ fbc with
                locals := fbc.locals + 1,
                src := fbc.src ++
                  [.stackAlloc (tmpName "buffer" fbc.locals)
                    ("(" ++ list ++ ").Length"),
                   .raw (list ++ ".AsSpan().CopyTo(new Span(" ++
                     tmpName "buffer" fbc.locals ++ ", " ++ list ++
                     ".Length))")] },
              ["(int)" ++ tmpName "buffer" fbc.locals,
                "(" ++ list ++ ").Length"]) ∧
      emit .Export (.ListCanonLower size realloc) [list] fbc =
        .ok ({ fbc with
                locals := fbc.locals + 3,
                src := fbc.src ++
                  [.varDecl (tmpName "buffer" (fbc.locals + 1))
                    ("new byte[(" ++ toString size ++ ") * " ++ list ++
                      ".Count()]"),
                   .raw ("Buffer.BlockCopy(" ++ list ++ ".ToArray(), 0, " ++
                     tmpName "buffer" (fbc.locals + 1) ++ ", 0, (" ++
                     toString size ++ ") * " ++ list ++ ".Count())"),
                   .gcAlloc (tmpName "gcHandle" (fbc.locals + 2))
                     (tmpName "buffer" (fbc.locals + 1)),
                   .varDecl (tmpName "address" fbc.locals)
                     (tmpName "gcHandle" (fbc.locals + 2) ++
                       ".AddrOfPinnedObject()")],
                cleanup := fbc.cleanup ++
                  (if realloc.isNone then
                    [Cleanup.mk (tmpName "gcHandle" (fbc.locals + 2))]
                  else []) },
              ["((IntPtr)(" ++ tmpName "address" fbc.locals ++
                  ")).ToInt32()", list ++ ".Count()"]) ∧
      emit dir (.ListLift elementTy size) [address, length] fb =
        .ok ({ fb with
                locals := fb.locals + 2,
                blocks := bs,
                src := fb.src ++
                  [.varDecl (tmpName "array" fb.locals)
                    ("new List<" ++ elementTy ++ ">(" ++ length ++ ")"),
                   .forLoop (tmpName "index" (fb.locals + 1)) length
                     (.varDecl blk.base
                        (address ++ " + (" ++ tmpName "index" (fb.locals + 1)
                          ++ " * " ++ toString size ++ ")") ::
                       blk.body ++
                       [.raw (tmpName "array" fb.locals ++ ".Add(" ++ r ++
                         ")")])] },
              [tmpName "array" fb.locals]) ∧
      emit dir (.ListLower size realloc) [list] fbl =
        .ok ({ fbl with
                locals := fbl.locals + 4,
                blocks := bsl,
                src := fbl.src ++
                  [.varDecl (tmpName "buffer" (fbl.locals + 1))
                    ("new byte[" ++ toString size ++ " * " ++ list ++
                      ".Count()]"),
                   .gcAlloc (tmpName "gcHandle" (fbl.locals + 2))
                     (tmpName "buffer" (fbl.locals + 1)),
                   .varDecl (tmpName "address" (fbl.locals + 3))
                     (tmpName "gcHandle" (fbl.locals + 2) ++
                       ".AddrOfPinnedObject()"),
                   .forLoop (tmpName "index" fbl.locals) (list ++ ".Count()")
                     ([.varDecl blkl.element
                        (list ++ "[" ++ tmpName "index" fbl.locals ++ "]"),
                       .varDecl blkl.base
                         ("(int)" ++ tmpName "address" (fbl.locals + 3) ++
                           " + (" ++ tmpName "index" fbl.locals ++ " * " ++
                           toString size ++ ")")] ++
                       blkl.body)],
                cleanup := fbl.cleanup ++
                  (if realloc.isNone then
                    [Cleanup.mk (tmpName "gcHandle" (fbl.locals + 2))]
                  else []) },
              ["(int)" ++ tmpName "address" (fbl.locals + 3),
                list ++ ".Count()"]) ∧
      listLiftRun evalBlock addr sz n =
        (List.range n).map fun i => evalBlock (addr + i * sz) := by
  refine ⟨⟨rfl, by cases element <;> simp [is_primitive]⟩, rfl, rfl, rfl,
    ?_, ?_, listLiftRun_eq_map evalBlock addr sz n⟩
  · show emit dir (.ListLift elementTy size) [address, length] fb = _
    simp only [emit]
    rw [hblocks]
    simp only [List.getLast?_concat, List.dropLast_concat, hres]
    rfl
  · show emit dir (.ListLower size realloc) [list] fbl = _
    simp only [emit]
    rw [hblocksl]
    simp only [List.getLast?_concat, List.dropLast_concat, hresl]
    rfl

/-- Witness for C6 at a concrete input: the general-list lift loop over 3
elements of size 4 at address 100 evaluates the block at 100, 104, 108 in
index order. -/
theorem list_canonical_and_loop_translation_witness :
    listLiftRun (fun a => a) 100 4 3 =
      (List.range 3).map (fun i => 100 + i * 4) := by
  have h := list_canonical_and_loop_translation WitType.u32 Direction.Import
    ⟨[], 0, [], [⟨[], ["r0"], "e", "b"⟩], []⟩
    ⟨[], 0, [], [⟨[], [], "e", "b"⟩], []⟩
    ⟨[], 0, [], [], []⟩
    [] [] ⟨[], ["r0"], "e", "b"⟩ ⟨[], [], "e", "b"⟩ "r0" "uint" "addr" "len"
    "list" 4 none (fun a => a) 100 4 3 rfl rfl rfl rfl
  exact h.2.2.2.2.2.2

theorem foldl_max_le_init (l : List Nat) : ∀ a : Nat, a ≤ l.foldl max a := by
  induction l with
  | nil => intro a; exact Nat.le_refl a
  | cons x rest ih =>
    intro a
    exact le_trans (Nat.le_max_left a x) (ih (max a x))

theorem mem_le_foldl_max (l : List Nat) :
    ∀ (x a : Nat), x ∈ l → x ≤ l.foldl max a := by
  induction l with
  | nil => intro x a hx; cases hx
  | cons y rest ih =>
    intro x a hx
    rcases List.mem_cons.mp hx with h | h
    · subst h
      exact le_trans (Nat.le_max_right a x) (foldl_max_le_init rest (max a x))
    · exact ih x (max a y) h

theorem runExportRequests_size_eq (rs : List (Nat × Nat)) :
    ∀ g : GenAcc, (runExportRequests g rs).return_area_size =
      (rs.map Prod.fst).foldl max g.return_area_size := by
  induction rs with
  | nil => intro g; rfl
  | cons r rest ih => intro g; simp [runExportRequests, ih]

theorem runExportRequests_align_eq (rs : List (Nat × Nat)) :
    ∀ g : GenAcc, (runExportRequests g rs).return_area_align =
      (rs.map Prod.snd).foldl max g.return_area_align := by
  induction rs with
  | nil => intro g; rfl
  | cons r rest ih => intro g; simp [runExportRequests, ih]

theorem runExportRequests_needs_mono (rs : List (Nat × Nat)) :
    ∀ g : GenAcc, g.needs_export_return_area = true →
      (runExportRequests g rs).needs_export_return_area = true := by
  induction rs with
  | nil => intro g h; exact h
  | cons r rest ih => intro g _; exact ih _ rfl

/-- C5: after translating all exported functions of the world, the shared
export return area accumulated by `return_pointer` and emitted once by
`CSharp::finish` is a thread-scoped static buffer whose size and alignment
are the maxima of the per-function requests, hence at least as large and
as aligned as every individual request; an import-side request instead
leaves the whole-world accumulator untouched (each import call allocates
its own transient area). -/
theorem export_return_area_sizing (reqs : List (Nat × Nat)) (s a : Nat)
    (hmem : (s, a) ∈ reqs) :
    (runExportRequests (GenAcc.mk 0 0 false) reqs).return_area_size =
        (reqs.map Prod.fst).foldl max 0 ∧
      (runExportRequests (GenAcc.mk 0 0 false) reqs).return_area_align =
        (reqs.map Prod.snd).foldl max 0 ∧
      s ≤ (runExportRequests (GenAcc.mk 0 0 false) reqs).return_area_size ∧
      a ≤ (runExportRequests (GenAcc.mk 0 0 false) reqs).return_area_align ∧
      finishReturnArea (runExportRequests (GenAcc.mk 0 0 false) reqs) =
        some (ReturnAreaDecl.mk
          (runExportRequests (GenAcc.mk 0 0 false) reqs).return_area_size
          (runExportRequests (GenAcc.mk 0 0 false) reqs).return_area_align
          true) ∧
      (∀ size align g0 l fb,
        (return_pointer .Import size align g0 l fb).1 = g0) ∧
      (∀ size align g0 l fb,
        (return_pointer .Export size align g0 l fb).1 =
          GenAcc.mk (max g0.return_area_size size)
            (max g0.return_area_align align) true) := by
  set g := runExportRequests (GenAcc.mk 0 0 false) reqs with hg
  have hsize : g.return_area_size = (reqs.map Prod.fst).foldl max 0 :=
    runExportRequests_size_eq reqs _
  have halign : g.return_area_align = (reqs.map Prod.snd).foldl max 0 :=
    runExportRequests_align_eq reqs _
  have hneeds : g.needs_export_return_area = true := by
    cases reqs with
    | nil => cases hmem
    | cons r rest =>
      exact runExportRequests_needs_mono rest _ rfl
  refine ⟨hsize, halign, ?_, ?_, ?_, fun _ _ _ _ _ => rfl,
    fun _ _ _ _ _ => rfl⟩
  · rw [hsize]
    exact mem_le_foldl_max _ s 0 (List.mem_map_of_mem Prod.fst hmem)
  · rw [halign]
    exact mem_le_foldl_max _ a 0 (List.mem_map_of_mem Prod.snd hmem)
  · unfold finishReturnArea
    rw [hneeds]
    rfl

/-- Witness for C5 at the spec's concrete input: export requests of 4, 12
and 20 bytes (aligned 4, 4, 8) yield a shared area of at least 20 bytes
aligned to at least 8. -/
theorem export_return_area_sizing_witness :
    ((20, 8) ∈ [(4, 4), (12, 4), (20, 8)] : Prop) ∧
      20 ≤ (runExportRequests (GenAcc.mk 0 0 false)
        [(4, 4), (12, 4), (20, 8)]).return_area_size ∧
      8 ≤ (runExportRequests (GenAcc.mk 0 0 false)
        [(4, 4), (12, 4), (20, 8)]).return_area_align := by
  have h := export_return_area_sizing [(4, 4), (12, 4), (20, 8)] 20 8
    (by decide)
  exact ⟨by decide, h.2.2.1, h.2.2.2.1⟩

/-- C7: the output of `CSharp::finish` is a deterministic function of the
resolved input: every emitted byte is derived from the entries and options
alone, and the one source of run-to-run variation — the iteration order of
the `interface_fragments` hash map — only permutes the order in which the
per-interface files are pushed, leaving the collection of (file name, file
content) pairs identical; hence repeated runs on identical input graphs
produce byte-identical output files with stable names. -/
theorem finish_files_stable_under_iteration_order
    (worldFiles : List (String × String)) (version : String)
    (generate_stub : Bool) (entries1 entries2 : List InterfaceEntry)
    (hperm : entries1.Perm entries2) :
    (finishFiles worldFiles version generate_stub entries1).Perm
      (finishFiles worldFiles version generate_stub entries2) := by
  unfold finishFiles
  exact (hperm.flatMap_right _).append_left worldFiles

/-- Witness for C7 at a concrete input: two interface entries visited in
either hash order yield the same collection of files. -/
theorem finish_files_stable_under_iteration_order_witness :
    (finishFiles [("w.cs", "world")] "0.1" false
        [InterfaceEntry.mk "a.IFoo" false [InterfaceFragment.mk "sf" "if" ""],
         InterfaceEntry.mk "b.IBar" true [InterfaceFragment.mk "sb" "ib" ""]]).Perm
      (finishFiles [("w.cs", "world")] "0.1" false
        [InterfaceEntry.mk "b.IBar" true [InterfaceFragment.mk "sb" "ib" ""],
         InterfaceEntry.mk "a.IFoo" false
           [InterfaceFragment.mk "sf" "if" ""]]) :=
  finish_files_stable_under_iteration_order [("w.cs", "world")] "0.1" false
    _ _ (List.Perm.swap _ _ _)
